import Mathlib

/-
Verification of the bobbae/syslog server core (syslog_server.go) against its
natural-language specification.  Go strings are modelled as List Char; the
rotating file store is modelled as the list of appended entries; network
connections are modelled by abstract identifiers with explicit oracles for
the outcome of each dial and write.
-/

set_option autoImplicit false

namespace Syslog

/-- Boolean test that the first list is a prefix of the second
(models Go strings.HasPrefix with the pattern given first). -/
def leadsWith : List Char → List Char → Bool
  | [], _ => true
  | _ :: _, [] => false
  | p :: ps, c :: cs => p == c && leadsWith ps cs

/-- Numeric value of a decimal digit character. -/
def digitVal (c : Char) : Nat := c.toNat - 48

/-- Boolean test that every character is an ASCII decimal digit. -/
def allDigits (l : List Char) : Bool :=
  l.all fun c => decide (48 ≤ c.toNat) && decide (c.toNat ≤ 57)

/-- Decimal value of a digit string, most significant first. -/
def digitsToNat (l : List Char) : Nat :=
  l.foldl (fun acc c => acc * 10 + digitVal c) 0

/-- Model of Go strconv.Atoi: an optional single sign followed by one or
more decimal digits, with the value required to fit in a signed 64-bit
integer; anything else is an error (None). -/
def goAtoi (s : List Char) : Option Int :=
  let signDigits : Int × List Char :=
    match s with
    | '-' :: rest => (-1, rest)
    | '+' :: rest => (1, rest)
    | _ => (1, s)
  let sign := signDigits.1
  let digits := signDigits.2
  if digits = [] then none
  else if allDigits digits then
    let v : Int := sign * (digitsToNat digits : Int)
    if -(2 ^ 63) ≤ v ∧ v ≤ 2 ^ 63 - 1 then some v else none
  else none

/-- Model of parsePriority from syslog_server.go: require a leading <,
find the first >, Atoi the text between them, and return
(facility, severity) = (priority / 8, priority % 8) with Go
truncated division. -/
def parsePriority (buf : List Char) : Option (Int × Int) :=
  if leadsWith ['<'] buf = false then none
  else
    match buf.findIdx? (fun c => c = '>') with
    | none => none
    | some ix =>
      match goAtoi ((buf.take ix).drop 1) with
      | none => none
      | some priority => some (priority.tdiv 8, priority.tmod 8)

/-- Text between the leading < and the first >, or [] when > is absent;
mirrors the slice buf[1:ix] taken by parsePriority. -/
def priorityText (buf : List Char) : List Char :=
  match buf.findIdx? (fun c => c = '>') with
  | none => []
  | some ix => (buf.take ix).drop 1

/-- Helper for goSplitN: scan the characters, cutting at each space while
more than one part may still be produced; the accumulator holds the
current part reversed. -/
def splitAux : List Char → Nat → List Char → List (List Char)
  | [], _, acc => [acc.reverse]
  | c :: rest, n, acc =>
    if c == ' ' && decide (1 < n) then acc.reverse :: splitAux rest (n - 1) []
    else splitAux rest n (c :: acc)

/-- Model of Go strings.SplitN(s, sep, n) for the single-space separator
used by parseSyslogMessage: at most n parts, the last part keeping the
unsplit remainder, consecutive separators yielding empty parts. -/
def goSplitN (l : List Char) (n : Nat) : List (List Char) :=
  if n = 0 then [] else splitAux l n []

/-- Model of Go strings.TrimSuffix: remove one trailing copy of the
suffix when present. -/
def goTrimSuffix (l suf : List Char) : List Char :=
  if leadsWith suf.reverse l.reverse then l.take (l.length - suf.length) else l

/-- Model of Go unicode.IsSpace over the White_Space code points. -/
def goIsSpace (c : Char) : Bool :=
  c == ' ' || c == '\t' || c == '\n' || c == '\x0b' || c == '\x0c' || c == '\r' ||
  c == '\x85' || c == '\xa0' || c == '\u1680' ||
  c == '\u2000' || c == '\u2001' || c == '\u2002' || c == '\u2003' || c == '\u2004' ||
  c == '\u2005' || c == '\u2006' || c == '\u2007' || c == '\u2008' || c == '\u2009' ||
  c == '\u200a' || c == '\u2028' || c == '\u2029' || c == '\u202f' || c == '\u205f' ||
  c == '\u3000'

/-- Model of Go strings.TrimSpace: drop whitespace from both ends. -/
def goTrimSpace (l : List Char) : List Char :=
  ((l.dropWhile goIsSpace).reverse.dropWhile goIsSpace).reverse

/-- Fuel-driven worker for replaceAll: at each position either replace a
leading occurrence of the pattern or keep the head character.  The fuel
only needs to dominate the list length because each step consumes at
least one character. -/
def repAux (pat rep : List Char) : Nat → List Char → List Char
  | _, [] => []
  | 0, l => l
  | Nat.succ f, c :: rest =>
    if leadsWith pat (c :: rest) then rep ++ repAux pat rep f ((c :: rest).drop pat.length)
    else c :: repAux pat rep f rest

/-- Model of Go strings.ReplaceAll for a nonempty pattern: replace every
non-overlapping occurrence, scanning left to right. -/
def replaceAll (s pat rep : List Char) : List Char :=
  repAux pat rep s.length s

/-- Model of cleanString from syslog_server.go: neutralize the opening and
closing script tokens, then trim surrounding whitespace. -/
def cleanString (s : List Char) : List Char :=
  goTrimSpace (replaceAll (replaceAll s "<script>".data "<XXX>".data)
    "</script>".data "</XXX>".data)

/-- Model of the syslogMsg struct: Index is 0 on a freshly parsed message
and set by getSyslogs. -/
structure SyslogMsg where
  index : Nat
  timestamp : List Char
  hostname : List Char
  appname : List Char
  message : List Char
deriving DecidableEq, Repr

/-- Model of parseSyslogMessage from syslog_server.go: validate the
priority bracket, drop it, split the remainder into at most six
space-separated parts, reassemble the first three as the timestamp, and
sanitize every field with cleanString. -/
def parseSyslogMessage (msg : List Char) : Option SyslogMsg :=
  if leadsWith ['<'] msg = false then none
  else
    match parsePriority msg with
    | none => none
    | some _ =>
      match msg.findIdx? (fun c => c = '>') with
      | none => none
      | some idx =>
        let rest := msg.drop (idx + 1)
        let parts := goSplitN rest 6
        if parts.length < 6 then none
        else
          let date := parts.getD 0 [] ++ [' '] ++ parts.getD 1 [] ++ [' '] ++ parts.getD 2 []
          let host := parts.getD 3 []
          let app := goTrimSuffix (parts.getD 4 []) [':']
          let body := parts.getD 5 []
          some { index := 0, timestamp := cleanString date, hostname := cleanString host,
                 appname := cleanString app, message := cleanString body }

/-- Model of the logFileHandler struct from syslog_server.go.  The
lumberjack logger is modelled by the list of entries appended to it
(store); the net.Conn is modelled by an abstract connection identifier. -/
structure LogFileHandler where
  maxSize : Int
  filename : List Char
  forwardAddr : List Char
  forwardProto : List Char
  forwardConn : Option Nat
  forwardLevel : Int
  disableLogging : Bool
  disableForwarding : Bool
  messages : List (List Char)
  store : List (List Char)
deriving DecidableEq, Repr

/-- Model of createLogFileHandler: logging is disabled when the filename
is empty, and a configured forward address requires a successful initial
dial (the dial argument is the oracle for net.Dial). -/
def createLogFileHandler (filename : List Char) (maxSize : Int)
    (forwardAddr forwardProto : List Char) (forwardLevel : Int)
    (dial : Option Nat) : Option LogFileHandler :=
  let handler : LogFileHandler :=
    { maxSize := maxSize, filename := filename, forwardAddr := forwardAddr,
      forwardProto := forwardProto, forwardConn := none, forwardLevel := forwardLevel,
      disableLogging := false, disableForwarding := false, messages := [], store := [] }
  let handler := if filename = [] then { handler with disableLogging := true } else handler
  if forwardAddr ≠ [] then
    match dial with
    | none => none
    | some c => some { handler with forwardConn := some c }
  else some { handler with disableForwarding := true }

/-- Entry written to the rotating store for one message, the Go
fmt.Sprintf of the bracketed remote address, the raw line and a
newline. -/
def logEntry (remoteAddr message : List Char) : List Char :=
  '[' :: remoteAddr ++ [']', ' '] ++ message ++ ['\n']

/-- Model of logMessage from syslog_server.go.  storeOk is the oracle for
the lumberjack write; the second component of the result is the list of
messages handed to forwardMessage (empty or a single message).  A failed
store write returns early, leaving the handler unchanged. -/
def logMessage (lh : LogFileHandler) (storeOk : Bool) (remoteAddr message : List Char) :
    LogFileHandler × List (List Char) :=
  if lh.disableLogging = false ∧ storeOk = false then (lh, [])
  else
    let lh1 := if lh.disableLogging = false
      then { lh with store := lh.store ++ [logEntry remoteAddr message] } else lh
    let lh2 := { lh1 with messages := lh1.messages ++ [message] }
    if lh2.forwardAddr ≠ [] ∧ lh2.disableForwarding = false then
      match parsePriority message with
      | none => (lh2, [])
      | some (_, severity) =>
        if lh2.forwardLevel > severity then (lh2, []) else (lh2, [message])
    else (lh2, [])

/-- Repeated ingestion of a list of raw lines from one remote address,
every store write succeeding. -/
def ingestAll (lh : LogFileHandler) (remoteAddr : List Char)
    (msgs : List (List Char)) : LogFileHandler :=
  msgs.foldl (fun h m => (logMessage h true remoteAddr m).1) lh

/-- Model of clearMessages: reset the message buffer to the empty slice. -/
def clearMessages (lh : LogFileHandler) : LogFileHandler :=
  { lh with messages := [] }

/-- Network events performed by forwardMessage, in order: a write attempt
on a connection with its payload and outcome, a close of a connection, or
a dial attempt with its outcome. -/
inductive NetEv where
  | wr (conn : Nat) (payload : List Char) (ok : Bool)
  | cl (conn : Nat)
  | dial (ok : Bool)
deriving DecidableEq, Repr

/-- Shared tail of forwardMessage: write the payload on conn; on failure
close the connection, redial once, and when the redial succeeds retry the
write exactly once.  A failed redial leaves forwardConn pointing at the
closed connection, as in the Go source. -/
def forwardWrite (lh : LogFileHandler) (conn : Nat) (payload : List Char)
    (w1 : Bool) (redial : Option Nat) (w2 : Bool) : LogFileHandler × List NetEv :=
  if w1 then (lh, [NetEv.wr conn payload true])
  else
    match redial with
    | none => (lh, [NetEv.wr conn payload false, NetEv.cl conn, NetEv.dial false])
    | some c2 =>
      ({ lh with forwardConn := some c2 },
        [NetEv.wr conn payload false, NetEv.cl conn, NetEv.dial true,
         NetEv.wr c2 payload w2])

/-- Model of forwardMessage from syslog_server.go.  dial1 is the oracle
for the first dial performed (the lazy reconnect when no connection
exists, or the reconnect after the first write failure), dial2 for the
second; w1 and w2 are the outcomes of the first and second write. -/
def forwardMessage (lh : LogFileHandler) (dial1 : Option Nat) (w1 : Bool)
    (dial2 : Option Nat) (w2 : Bool) (message : List Char) :
    LogFileHandler × List NetEv :=
  if lh.disableForwarding then (lh, [])
  else
    let payload := message ++ ['\n']
    match lh.forwardConn with
    | some c => forwardWrite lh c payload w1 dial1 w2
    | none =>
      match dial1 with
      | none => (lh, [NetEv.dial false])
      | some c =>
        let (lh2, evs) := forwardWrite { lh with forwardConn := some c } c payload w1 dial2 w2
        (lh2, NetEv.dial true :: evs)

/-- HTML fragment rendered for one parsed message at 0-based position i. -/
def rowHtml (i : Nat) (s : SyslogMsg) : List Char :=
  "<tr>".data ++
  ("<td>".data ++ (Nat.repr (i + 1)).data ++ "</td>".data) ++
  ("<td>".data ++ s.timestamp ++ "</td>".data) ++
  ("<td>".data ++ s.hostname ++ "</td>".data) ++
  ("<td>".data ++ s.appname ++ "</td>".data) ++
  ("<td>".data ++ s.message ++ "</td>".data) ++
  "</tr>".data

/-- Placeholder row returned when the buffer is empty; the single quotes
of the source markup are built explicitly. -/
def noMessagesRow : List Char :=
  "<tr><td colspan=".data ++ [Char.ofNat 39, '5', Char.ofNat 39] ++
  ">No messages yet.</td></tr>".data

/-- Loop of renderMessageRows: parse each line, skip failures, emit a row
for each success with its 1-based position. -/
def renderRows : Nat → List (List Char) → List Char
  | _, [] => []
  | i, m :: rest =>
    match parseSyslogMessage m with
    | none => renderRows (i + 1) rest
    | some sm => rowHtml i sm ++ renderRows (i + 1) rest

/-- Model of renderMessageRows from syslog_server.go. -/
def renderMessageRows (lh : LogFileHandler) : List Char :=
  if lh.messages.length = 0 then noMessagesRow
  else renderRows 0 lh.messages

/-- Loop of getSyslogs: parse each line, skip failures, record the
1-based position of each success in its index field. -/
def getSyslogsAux : Nat → List (List Char) → List SyslogMsg
  | _, [] => []
  | i, m :: rest =>
    match parseSyslogMessage m with
    | none => getSyslogsAux (i + 1) rest
    | some sm => { sm with index := i + 1 } :: getSyslogsAux (i + 1) rest

/-- Model of getSyslogs from syslog_server.go. -/
def getSyslogs (lh : LogFileHandler) : List SyslogMsg :=
  if lh.messages.length = 0 then [] else getSyslogsAux 0 lh.messages

/-- Decidable occurrence test: pat appears as a contiguous run somewhere
in l. -/
def occursIn (pat l : List Char) : Bool :=
  (List.range (l.length + 1)).any fun i => leadsWith pat (l.drop i)

/-- Propositional form of non-occurrence, quantifying over every start
position. -/
def noOcc (pat l : List Char) : Prop :=
  ∀ i : Nat, leadsWith pat (l.drop i) = false

/-- Concrete handler with file logging and forwarding both disabled, as
built for a run with no -file and no -remote flag. -/
def lhPlain : LogFileHandler :=
  { maxSize := 10, filename := [], forwardAddr := [], forwardProto := "udp".data,
    forwardConn := none, forwardLevel := 6, disableLogging := true,
    disableForwarding := true, messages := [], store := [] }

/-- Concrete handler with forwarding configured on a live connection and
file logging disabled. -/
def lhFwd : LogFileHandler :=
  { maxSize := 10, filename := [], forwardAddr := "up:514".data,
    forwardProto := "udp".data, forwardConn := some 7, forwardLevel := 6,
    disableLogging := true, disableForwarding := false, messages := [], store := [] }

/-- Concrete handler with both file logging and forwarding configured. -/
def lhFwdLog : LogFileHandler :=
  { maxSize := 10, filename := "syslog.log".data, forwardAddr := "up:514".data,
    forwardProto := "udp".data, forwardConn := some 7, forwardLevel := 6,
    disableLogging := false, disableForwarding := false, messages := [], store := [] }

end Syslog

namespace Syslog

theorem logMessage_fst_messages (lh : LogFileHandler) (a m : List Char) :
    ((logMessage lh true a m).1).messages = lh.messages ++ [m] := by
  unfold logMessage
  cases hd : lh.disableLogging <;> simp [hd] <;>
    split <;> (try split) <;> (try split) <;> simp_all

/-- C4: when file logging is enabled and the store write fails, logMessage
returns early with the handler unchanged and no call to forwardMessage. -/
theorem C4_store_failure (lh : LogFileHandler) (a m : List Char)
    (h : lh.disableLogging = false) :
    logMessage lh false a m = (lh, []) := by
  unfold logMessage
  rw [if_pos ⟨h, rfl⟩]

/-- Witness for C4 at a concrete handler and message. -/
theorem C4_witness :
    logMessage lhFwdLog false "1.2.3.4:5".data "<13>x".data = (lhFwdLog, []) :=
  C4_store_failure lhFwdLog "1.2.3.4:5".data "<13>x".data rfl

/-- C10: with forwarding configured, a message whose priority does not
parse is still appended to the buffer (and written to the store when
logging is enabled) but is never handed to forwardMessage. -/
theorem C10_unparsed_not_forwarded (lh : LogFileHandler) (storeOk : Bool)
    (a m : List Char)
    (hfa : lh.forwardAddr ≠ []) (hdf : lh.disableForwarding = false)
    (hlog : lh.disableLogging = false → storeOk = true)
    (hp : parsePriority m = none) :
    ((logMessage lh storeOk a m).1).messages = lh.messages ++ [m] ∧
    (logMessage lh storeOk a m).2 = [] ∧
    (lh.disableLogging = false →
      ((logMessage lh storeOk a m).1).store = lh.store ++ [logEntry a m]) ∧
    (lh.disableLogging = true →
      ((logMessage lh storeOk a m).1).store = lh.store) := by
  unfold logMessage
  cases hd : lh.disableLogging
  · have hs := hlog hd
    subst hs
    simp [hd, hfa, hdf, hp]
  · simp [hd, hfa, hdf, hp]

/-- Witness for C10 at a concrete handler and an unparseable line. -/
theorem C10_witness :
    ((logMessage lhFwdLog true "1.2.3.4:5".data "garbage".data).1).messages =
      lhFwdLog.messages ++ ["garbage".data] ∧
    (logMessage lhFwdLog true "1.2.3.4:5".data "garbage".data).2 = [] ∧
    (lhFwdLog.disableLogging = false →
      ((logMessage lhFwdLog true "1.2.3.4:5".data "garbage".data).1).store =
        lhFwdLog.store ++ [logEntry "1.2.3.4:5".data "garbage".data]) ∧
    (lhFwdLog.disableLogging = true →
      ((logMessage lhFwdLog true "1.2.3.4:5".data "garbage".data).1).store =
        lhFwdLog.store) :=
  C10_unparsed_not_forwarded lhFwdLog true "1.2.3.4:5".data "garbage".data
    (by decide) rfl (fun _ => rfl) (by decide)

/-- C1 (amended): with forwarding configured and the store write not
failing, logMessage skips forwarding exactly when the parsed severity is
numerically smaller than forwardLevel, and otherwise hands the message to
forwardMessage; the spec has the comparison reversed. -/
theorem C1_threshold (lh : LogFileHandler) (storeOk : Bool) (a m : List Char)
    (f s : Int)
    (hfa : lh.forwardAddr ≠ []) (hdf : lh.disableForwarding = false)
    (hlog : lh.disableLogging = false → storeOk = true)
    (hp : parsePriority m = some (f, s)) :
    (logMessage lh storeOk a m).2 = if lh.forwardLevel > s then [] else [m] := by
  unfold logMessage
  cases hd : lh.disableLogging
  · have hs := hlog hd
    subst hs
    simp [hd, hfa, hdf, hp]
    split <;> rfl
  · simp [hd, hfa, hdf, hp]
    split <;> rfl

/-- Counterexample to C1 as stated: a severity-0 line is not numerically
greater than the threshold 6, so the claim requires it to be forwarded,
but the code skips it. -/
theorem C1_counterexample :
    parsePriority "<0>Oct 17 14:32:00 h a: m".data = some (0, 0) ∧
    ¬ ((0 : Int) > lhFwd.forwardLevel) ∧
    (logMessage lhFwd true "1.2.3.4:5".data "<0>Oct 17 14:32:00 h a: m".data).2 = [] :=
  ⟨by decide, by decide, by decide⟩

/-- Witness for the amended C1 at a severity-7 line, which the handler
with threshold 6 does forward. -/
theorem C1_witness :
    (logMessage lhFwd true "1.2.3.4:5".data "<7>x".data).2 =
      if lhFwd.forwardLevel > (7 : Int) then [] else ["<7>x".data] :=
  C1_threshold lhFwd true "1.2.3.4:5".data "<7>x".data 0 7
    (by decide) rfl (fun h => by simp [lhFwd] at h) (by decide)

/-- C3 (amended): the buffer is unbounded; any sequence of successful
ingests appends all messages in arrival order and never evicts. -/
theorem C3_unbounded_append (lh : LogFileHandler) (a : List Char)
    (msgs : List (List Char)) :
    (ingestAll lh a msgs).messages = lh.messages ++ msgs := by
  induction msgs generalizing lh with
  | nil => simp [ingestAll]
  | cons m rest ih =>
    have step : ingestAll lh a (m :: rest) = ingestAll ((logMessage lh true a m).1) a rest := rfl
    rw [step, ih, logMessage_fst_messages]
    simp

/-- Counterexample to C3 as stated: no positive cap bounds the buffer,
because the code has no maxMessages configuration and never trims. -/
theorem C3_counterexample :
    ¬ (∀ maxM : Int, 0 < maxM →
        ∀ (lh : LogFileHandler) (a : List Char) (msgs : List (List Char)),
          lh.messages = [] →
          ((ingestAll lh a msgs).messages.length : Int) ≤ maxM) := by
  intro h
  have h2 := h 1 (by decide) lhPlain "1.2.3.4:5".data ["m1".data, "m2".data] rfl
  have e : (ingestAll lhPlain "1.2.3.4:5".data ["m1".data, "m2".data]).messages.length = 2 := by
    decide
  rw [e] at h2
  exact absurd h2 (by decide)

/-- C9: clearMessages empties the buffer, leaves every other handler
field (store, connection, configuration) unchanged, and rendering right
after a clear yields the empty-state placeholder row. -/
theorem C9_clear_frame (lh : LogFileHandler) :
    (clearMessages lh).messages = [] ∧
    (clearMessages lh).store = lh.store ∧
    (clearMessages lh).filename = lh.filename ∧
    (clearMessages lh).maxSize = lh.maxSize ∧
    (clearMessages lh).forwardAddr = lh.forwardAddr ∧
    (clearMessages lh).forwardProto = lh.forwardProto ∧
    (clearMessages lh).forwardConn = lh.forwardConn ∧
    (clearMessages lh).forwardLevel = lh.forwardLevel ∧
    (clearMessages lh).disableLogging = lh.disableLogging ∧
    (clearMessages lh).disableForwarding = lh.disableForwarding ∧
    renderMessageRows (clearMessages lh) = noMessagesRow := by
  refine ⟨rfl, rfl, rfl, rfl, rfl, rfl, rfl, rfl, rfl, rfl, ?_⟩
  simp [clearMessages, renderMessageRows]

/-- C5 (amended): parsePriority fails exactly when the leading bracket is
missing or the text before the first closing bracket does not Atoi-parse
as a signed 64-bit integer, and on success with integer P it returns
facility = P tdiv 8 and severity = P tmod 8. -/
theorem C5_characterization (buf : List Char) :
    parsePriority buf =
      (if leadsWith ['<'] buf
        then (goAtoi (priorityText buf)).map (fun p => (p.tdiv 8, p.tmod 8))
        else none) := by
  unfold parsePriority priorityText
  cases h1 : leadsWith ['<'] buf
  · simp
  · simp only [Bool.true_eq_false, if_neg, ite_false, if_true, ite_true]
    cases h2 : buf.findIdx? (fun c => c = '>')
    · simp [goAtoi]
    · cases h3 : goAtoi ((buf.take _).drop 1) <;> rw [List.drop_one] at h3 <;> simp [h3]

/-- Counterexample to C5 as stated: the bracketed text -1 is not a
non-negative integer, yet parsePriority succeeds on it, with Go
truncated division giving facility 0 and severity -1. -/
theorem C5_counterexample :
    priorityText "<-1>x".data = "-1".data ∧
    allDigits "-1".data = false ∧
    parsePriority "<-1>x".data = some (0, -1) :=
  ⟨by decide, by decide, by decide⟩

/-- C2: evaluating the ingest-then-render pipeline at the double-space
line shows the row the code actually produces: the time-of-day lands in
the hostname field, the hostname in the app field, and the app prefix
stays glued to the message. -/
theorem C2_eval :
    (createLogFileHandler [] 10 [] "udp".data 6 none).map
      (fun lh => getSyslogs
        (logMessage lh true "127.0.0.1:9".data
          "<16>Jan  1 00:00:00 localhost myapp: hello world".data).1) =
    some [{ index := 1, timestamp := "Jan  1".data, hostname := "00:00:00".data,
            appname := "localhost".data, message := "myapp: hello world".data }] := by
  decide

theorem getSyslogsAux_eq (i : Nat) (ms : List (List Char)) :
    getSyslogsAux i ms =
      (List.enumFrom i ms).filterMap
        (fun p => (parseSyslogMessage p.2).map (fun sm => { sm with index := p.1 + 1 })) := by
  induction ms generalizing i with
  | nil => rfl
  | cons m rest ih =>
    simp only [getSyslogsAux, List.enumFrom, List.filterMap_cons]
    cases hp : parseSyslogMessage m <;> simp [hp, ih]

theorem renderRows_eq (i : Nat) (ms : List (List Char)) :
    renderRows i ms =
      ((List.enumFrom i ms).filterMap
        (fun p => (parseSyslogMessage p.2).map (fun sm => rowHtml p.1 sm))).flatten := by
  induction ms generalizing i with
  | nil => rfl
  | cons m rest ih =>
    simp only [renderRows, List.enumFrom, List.filterMap_cons]
    cases hp : parseSyslogMessage m <;> simp [hp, ih]

/-- C7: both read paths parse each buffered line, drop exactly the lines
whose parse fails while continuing with the rest, and emit the surviving
entries in original buffer order (getSyslogs stamping the 1-based buffer
position, renderMessageRows concatenating the rows or falling back to the
placeholder on an empty buffer). -/
theorem C7_render_filter (lh : LogFileHandler) :
    getSyslogs lh =
      lh.messages.enum.filterMap
        (fun p => (parseSyslogMessage p.2).map (fun sm => { sm with index := p.1 + 1 })) ∧
    renderMessageRows lh =
      (if lh.messages.length = 0 then noMessagesRow
       else (lh.messages.enum.filterMap
          (fun p => (parseSyslogMessage p.2).map (fun sm => rowHtml p.1 sm))).flatten) := by
  constructor
  · unfold getSyslogs
    split
    · next h =>
      rw [List.length_eq_zero] at h
      simp [h]
    · rw [getSyslogsAux_eq]
      rfl
  · unfold renderMessageRows
    split
    · rfl
    · rw [renderRows_eq]
      rfl

/-- C6: forwardMessage with a live connection writes the message plus a
newline; on a write error it closes the broken connection, performs
exactly one reconnect, retries the write exactly once, and after a second
failure gives up, never queueing the message anywhere. -/
theorem C6_forward_retry (lh : LogFileHandler) (c c2 : Nat)
    (dial1 dial2 : Option Nat) (w1 w2 : Bool) (m : List Char)
    (hdf : lh.disableForwarding = false) (hc : lh.forwardConn = some c) :
    ((forwardMessage lh dial1 w1 dial2 w2 m).1.messages = lh.messages) ∧
    (w1 = true →
      forwardMessage lh dial1 w1 dial2 w2 m = (lh, [NetEv.wr c (m ++ ['\n']) true])) ∧
    (w1 = false → dial1 = none →
      forwardMessage lh dial1 w1 dial2 w2 m =
        (lh, [NetEv.wr c (m ++ ['\n']) false, NetEv.cl c, NetEv.dial false])) ∧
    (w1 = false → dial1 = some c2 →
      forwardMessage lh dial1 w1 dial2 w2 m =
        ({ lh with forwardConn := some c2 },
         [NetEv.wr c (m ++ ['\n']) false, NetEv.cl c, NetEv.dial true,
          NetEv.wr c2 (m ++ ['\n']) w2])) := by
  unfold forwardMessage forwardWrite
  simp only [hdf, hc]
  refine ⟨?_, ?_, ?_, ?_⟩
  · cases w1 <;> cases dial1 <;> simp
  · intro h1
    subst h1
    simp
  · intro h1 h2
    subst h1
    subst h2
    simp
  · intro h1 h2
    subst h1
    subst h2
    simp

/-- Witness for C6: with a live connection and a successful first write
the only event is that single write of the newline-terminated message. -/
theorem C6_witness :
    forwardMessage lhFwd none true none true "m".data =
      (lhFwd, [NetEv.wr 7 ("m".data ++ ['\n']) true]) :=
  (C6_forward_retry lhFwd 7 0 none none true true "m".data rfl rfl).2.1 rfl

theorem leadsWith_nil (p : List Char) (h : p ≠ []) : leadsWith p [] = false := by
  cases p with
  | nil => exact absurd rfl h
  | cons a b => rfl

theorem drop_ne_nil (q : List Char) (j : Nat) (h : j < q.length) : q.drop j ≠ [] := by
  intro he
  have := congrArg List.length he
  simp [List.length_drop] at this
  omega

theorem leadsWith_overlap (p a b : List Char) (h : leadsWith p (a ++ b) = true) :
    a.take p.length = p.take a.length := by
  induction a generalizing p b with
  | nil => simp
  | cons c cs iha =>
    cases p with
    | nil => simp
    | cons q ps =>
      rw [List.cons_append] at h
      simp only [leadsWith, Bool.and_eq_true, beq_iff_eq] at h
      obtain ⟨h1, h2⟩ := h
      simp only [List.length_cons, List.take_succ_cons]
      rw [h1, iha ps b h2]

theorem leadsWith_take (p t : List Char) (n : Nat)
    (h : leadsWith p (t.take n) = true) : leadsWith p t = true := by
  induction p generalizing t n with
  | nil => rfl
  | cons a ps ihp =>
    cases n with
    | zero => rw [List.take_zero] at h; simp [leadsWith] at h
    | succ n' =>
      cases t with
      | nil => simp [leadsWith] at h
      | cons c ts =>
        rw [List.take_succ_cons] at h
        simp only [leadsWith, Bool.and_eq_true] at h ⊢
        exact ⟨h.1, ihp ts n' h.2⟩

theorem noOcc_drop (pat l : List Char) (n : Nat) (h : noOcc pat l) :
    noOcc pat (l.drop n) := by
  intro i
  rw [List.drop_drop]
  exact h _

theorem noOcc_take (pat l : List Char) (n : Nat) (h : noOcc pat l) :
    noOcc pat (l.take n) := by
  intro i
  rw [List.drop_take]
  cases h2 : leadsWith pat ((l.drop i).take (n - i)) with
  | false => rfl
  | true => exact absurd (leadsWith_take _ _ _ h2) (by simp [h i])

theorem dropAppendHigh (a b : List Char) (i : Nat) (h : a.length ≤ i) :
    (a ++ b).drop i = b.drop (i - a.length) := by
  induction a generalizing i with
  | nil => simp
  | cons x xs ihx =>
    cases i with
    | zero => simp at h
    | succ i' =>
      simp only [List.cons_append, List.drop_succ_cons, List.length_cons]
      rw [ihx i' (by simpa using h), Nat.succ_sub_succ]

theorem dropAppendLow (a b : List Char) (i : Nat) (h : i ≤ a.length) :
    (a ++ b).drop i = a.drop i ++ b := by
  induction a generalizing i with
  | nil =>
    have : i = 0 := by simpa using h
    subst this
    simp
  | cons x xs ihx =>
    cases i with
    | zero => simp
    | succ i' =>
      simp only [List.cons_append, List.drop_succ_cons]
      exact ihx i' (by simpa using h)

theorem repAux_nil (p r : List Char) (f : Nat) : repAux p r f [] = [] := by
  cases f <;> rfl

theorem repAux_main (p r q : List Char)
    (hp : p ≠ []) (hq : q ≠ [])
    (hcross : ∀ k, k < r.length → ¬ ((r.drop k).take q.length = q.take (r.length - k)))
    (hsuf : ∀ j, j < q.length → 1 ≤ j →
      ¬ (r.take (q.length - j) = (q.drop j).take r.length)) :
    ∀ (f : Nat) (l : List Char), l.length ≤ f → (q = p ∨ noOcc q l) →
      noOcc q (repAux p r f l) ∧
      (∀ j, j < q.length → 1 ≤ j →
        leadsWith (q.drop j) (repAux p r f l) = true →
        leadsWith (q.drop j) l = true) := by
  intro f
  induction f with
  | zero =>
    intro l hlen _
    have hl : l = [] := List.length_eq_zero.mp (Nat.le_zero.mp hlen)
    subst hl
    constructor
    · intro i
      rw [repAux_nil, List.drop_nil]
      exact leadsWith_nil q hq
    · intro j hj hj1 hlw
      rw [repAux_nil] at hlw
      rw [leadsWith_nil _ (drop_ne_nil q j hj)] at hlw
      exact absurd hlw (by simp)
  | succ f ih =>
    intro l hlen hpre
    cases l with
    | nil =>
      constructor
      · intro i
        rw [repAux_nil, List.drop_nil]
        exact leadsWith_nil q hq
      · intro j hj hj1 hlw
        rw [repAux_nil] at hlw
        rw [leadsWith_nil _ (drop_ne_nil q j hj)] at hlw
        exact absurd hlw (by simp)
    | cons c rest =>
      have hrest : rest.length ≤ f := by
        simp only [List.length_cons] at hlen
        omega
      cases hm : leadsWith p (c :: rest) with
      | false =>
        have hpre2 : q = p ∨ noOcc q rest := by
          rcases hpre with h | h
          · exact Or.inl h
          · exact Or.inr fun i => h (i + 1)
        obtain ⟨ih1, ih2⟩ := ih rest hrest hpre2
        have hR : repAux p r (f + 1) (c :: rest) = c :: repAux p r f rest := by
          simp [repAux, hm]
        constructor
        · intro i
          rw [hR]
          cases i with
          | zero =>
            rw [List.drop_zero]
            cases hq0 : leadsWith q (c :: repAux p r f rest) with
            | false => rfl
            | true =>
              exfalso
              obtain ⟨qh, qt, hqe⟩ : ∃ qh qt, q = qh :: qt := by
                cases q with
                | nil => exact absurd rfl hq
                | cons a b => exact ⟨a, b, rfl⟩
              rw [hqe] at hq0
              simp only [leadsWith, Bool.and_eq_true, beq_iff_eq] at hq0
              obtain ⟨he, hq2⟩ := hq0
              have hqt : leadsWith qt rest = true := by
                cases qt with
                | nil => rfl
                | cons y ys =>
                  have hlen2 : 1 < q.length := by rw [hqe]; simp
                  have hq2b : leadsWith (q.drop 1) (repAux p r f rest) = true := by
                    rw [hqe]; exact hq2
                  have := ih2 1 hlen2 le_rfl hq2b
                  rw [hqe] at this
                  exact this
              have hfull : leadsWith q (c :: rest) = true := by
                rw [hqe]
                simp only [leadsWith, Bool.and_eq_true, beq_iff_eq]
                exact ⟨he, hqt⟩
              rcases hpre with hqp | hno
              · rw [hqp, hm] at hfull
                exact absurd hfull (by simp)
              · have h0 := hno 0
                rw [List.drop_zero] at h0
                rw [h0] at hfull
                exact absurd hfull (by simp)
          | succ i2 =>
            rw [List.drop_succ_cons]
            exact ih1 i2
        · intro j hj hj1 hlw
          rw [hR] at hlw
          have hdq : q.drop j = q.get ⟨j, hj⟩ :: q.drop (j + 1) :=
            List.drop_eq_getElem_cons hj
          rw [hdq] at hlw ⊢
          simp only [leadsWith, Bool.and_eq_true, beq_iff_eq] at hlw ⊢
          obtain ⟨he, hq2⟩ := hlw
          refine ⟨he, ?_⟩
          by_cases hend : j + 1 < q.length
          · exact ih2 (j + 1) hend (by omega) hq2
          · rw [List.drop_eq_nil_of_le (by omega)]
            rfl
      | true =>
        have hp1 : 1 ≤ p.length := by
          cases p with
          | nil => exact absurd rfl hp
          | cons _ _ => simp
        have hR : repAux p r (f + 1) (c :: rest) =
            r ++ repAux p r f ((c :: rest).drop p.length) := by
          simp [repAux, hm]
        have hlen2 : ((c :: rest).drop p.length).length ≤ f := by
          rw [List.length_drop]
          simp only [List.length_cons]
          omega
        have hpre2 : q = p ∨ noOcc q ((c :: rest).drop p.length) := by
          rcases hpre with h | h
          · exact Or.inl h
          · exact Or.inr (noOcc_drop _ _ _ h)
        obtain ⟨ih1, ih2⟩ := ih _ hlen2 hpre2
        constructor
        · intro i
          rw [hR]
          rcases Nat.lt_or_ge i r.length with hi | hi
          · rw [dropAppendLow _ _ _ (Nat.le_of_lt hi)]
            cases hq0 : leadsWith q (r.drop i ++ repAux p r f ((c :: rest).drop p.length)) with
            | false => rfl
            | true =>
              exfalso
              have hov := leadsWith_overlap _ _ _ hq0
              rw [List.length_drop] at hov
              exact absurd hov (hcross i hi)
          · rw [dropAppendHigh _ _ _ hi]
            exact ih1 _
        · intro j hj hj1 hlw
          rw [hR] at hlw
          have hov := leadsWith_overlap _ _ _ hlw
          rw [List.length_drop] at hov
          exact absurd hov (hsuf j hj hj1)

theorem noOcc_pass1 (s : List Char) :
    noOcc "<script>".data (replaceAll s "<script>".data "<XXX>".data) :=
  (repAux_main "<script>".data "<XXX>".data "<script>".data
    (by decide) (by decide) (by decide) (by decide)
    s.length s le_rfl (Or.inl rfl)).1

theorem noOcc_pass2_preserve (t : List Char) (h : noOcc "<script>".data t) :
    noOcc "<script>".data (replaceAll t "</script>".data "</XXX>".data) :=
  (repAux_main "</script>".data "</XXX>".data "<script>".data
    (by decide) (by decide) (by decide) (by decide)
    t.length t le_rfl (Or.inr h)).1

theorem noOcc_pass2_self (t : List Char) :
    noOcc "</script>".data (replaceAll t "</script>".data "</XXX>".data) :=
  (repAux_main "</script>".data "</XXX>".data "</script>".data
    (by decide) (by decide) (by decide) (by decide)
    t.length t le_rfl (Or.inl rfl)).1

theorem dropWhile_eq_drop (g : Char → Bool) (l : List Char) :
    ∃ n, l.dropWhile g = l.drop n := by
  induction l with
  | nil => exact ⟨0, rfl⟩
  | cons c rest ihl =>
    by_cases hg : g c
    · obtain ⟨n, hn⟩ := ihl
      exact ⟨n + 1, by simp [List.dropWhile_cons, hg, hn]⟩
    · exact ⟨0, by simp [List.dropWhile_cons, hg]⟩

theorem rev_drop_rev (l : List Char) (n : Nat) :
    (l.reverse.drop n).reverse = l.take (l.length - n) := by
  rcases Nat.le_total n l.length with h | h
  · have key : l.reverse =
        (l.drop (l.length - n)).reverse ++ (l.take (l.length - n)).reverse := by
      rw [← List.reverse_append, List.take_append_drop]
    have ha : ((l.drop (l.length - n)).reverse).length = n := by
      simp only [List.length_reverse, List.length_drop]
      omega
    rw [key, dropAppendHigh _ _ _ (by rw [ha]), ha, Nat.sub_self, List.drop_zero,
      List.reverse_reverse]
  · have h1 : l.reverse.drop n = [] := List.drop_eq_nil_of_le (by simpa using h)
    have h2 : l.length - n = 0 := Nat.sub_eq_zero_of_le h
    rw [h1, h2, List.take_zero]
    rfl

theorem noOcc_trim (pat l : List Char) (h : noOcc pat l) :
    noOcc pat (goTrimSpace l) := by
  unfold goTrimSpace
  obtain ⟨n1, e1⟩ := dropWhile_eq_drop goIsSpace l
  rw [e1]
  obtain ⟨n2, e2⟩ := dropWhile_eq_drop goIsSpace (l.drop n1).reverse
  rw [e2, rev_drop_rev]
  exact noOcc_take _ _ _ (noOcc_drop _ _ _ h)

theorem noOcc_cleanString (s : List Char) :
    noOcc "<script>".data (cleanString s) ∧ noOcc "</script>".data (cleanString s) := by
  unfold cleanString
  constructor
  · exact noOcc_trim _ _ (noOcc_pass2_preserve _ (noOcc_pass1 s))
  · exact noOcc_trim _ _ (noOcc_pass2_self _)

theorem noOcc_occursIn (pat l : List Char) (h : noOcc pat l) :
    occursIn pat l = false := by
  unfold occursIn
  cases hA : (List.range (l.length + 1)).any (fun i => leadsWith pat (l.drop i)) with
  | false => rfl
  | true =>
    exfalso
    rw [List.any_eq_true] at hA
    obtain ⟨i, _, hi⟩ := hA
    simp [h i] at hi

theorem parseSyslogMessage_fields (msg : List Char) (sm : SyslogMsg)
    (h : parseSyslogMessage msg = some sm) :
    ∃ d ho ap bo, sm = SyslogMsg.mk 0 (cleanString d) (cleanString ho)
      (cleanString ap) (cleanString bo) := by
  rw [parseSyslogMessage] at h
  split at h
  · exact absurd h (by simp)
  · split at h
    · exact absurd h (by simp)
    · split at h
      · exact absurd h (by simp)
      · dsimp only [] at h
        split at h
        · exact absurd h (by simp)
        · injection h with h2
          exact ⟨_, _, _, _, h2.symm⟩

/-- C8: every field of a successfully parsed message has been sanitized:
neither the opening nor the closing script token occurs anywhere in the
timestamp, hostname, appname or message field. -/
theorem C8_sanitized (msg : List Char) (sm : SyslogMsg)
    (h : parseSyslogMessage msg = some sm) :
    (occursIn "<script>".data sm.timestamp = false ∧
      occursIn "</script>".data sm.timestamp = false) ∧
    (occursIn "<script>".data sm.hostname = false ∧
      occursIn "</script>".data sm.hostname = false) ∧
    (occursIn "<script>".data sm.appname = false ∧
      occursIn "</script>".data sm.appname = false) ∧
    (occursIn "<script>".data sm.message = false ∧
      occursIn "</script>".data sm.message = false) := by
  obtain ⟨d, ho, ap, bo, rfl⟩ := parseSyslogMessage_fields msg sm h
  refine ⟨⟨?_, ?_⟩, ⟨?_, ?_⟩, ⟨?_, ?_⟩, ⟨?_, ?_⟩⟩ <;>
    first
      | exact noOcc_occursIn _ _ (noOcc_cleanString _).1
      | exact noOcc_occursIn _ _ (noOcc_cleanString _).2

/-- Witness for C8 at a concrete parseable line. -/
theorem C8_witness :
    (occursIn "<script>".data "Oct 11 10:00:00".data = false ∧
      occursIn "</script>".data "Oct 11 10:00:00".data = false) ∧
    (occursIn "<script>".data "hosta".data = false ∧
      occursIn "</script>".data "hosta".data = false) ∧
    (occursIn "<script>".data "appb".data = false ∧
      occursIn "</script>".data "appb".data = false) ∧
    (occursIn "<script>".data "hello".data = false ∧
      occursIn "</script>".data "hello".data = false) :=
  C8_sanitized "<13>Oct 11 10:00:00 hosta appb: hello".data
    { index := 0, timestamp := "Oct 11 10:00:00".data, hostname := "hosta".data,
      appname := "appb".data, message := "hello".data } (by decide)

end Syslog

